import Mathlib

/-!
Verification of the PPO/GAE training core of this repository against its
natural-language specification.  The Python source is shallowly embedded:
arrays become lists (time-major matrices are lists of rows), jax booleans
multiplied into arithmetic become explicit 0/1 coercions, and the
`jax.lax.scan` over reversed indices in `gae_advantages` becomes a
structurally recursive scan over `(List.range N).reverse`.
-/

set_option linter.unusedVariables false

namespace PaperRL

/-- Numeric coercion of a done flag, as jax casts booleans into floats:
`true ↦ 1`, `false ↦ 0`. -/
def doneNum {α : Type} [CommRing α] (d : Bool) : α := if d then 1 else 0

/-- Embeds `not_dones = ~dones` of `gae_advantages`, as the numeric factor it is
multiplied in as: `true ↦ 0`, `false ↦ 1`. -/
def notDoneNum {α : Type} [CommRing α] (d : Bool) : α := if d then 0 else 1

/-- Embeds `deltas = rewards + (gamma * values[1:] * not_dones - values[:-1])` of
`gae_advantages` (ppo.py lines 29-30), read at index `t`. -/
def deltasCode {α : Type} [CommRing α] (rewards : List α) (dones : List Bool)
    (values : List α) (γ : α) (t : Nat) : α :=
  rewards.getD t 0 +
    (γ * values.getD (t + 1) 0 * notDoneNum (dones.getD t false) - values.getD t 0)

/-- The `jax.lax.scan` of `gae_advantages` (ppo.py lines 32-41): carry `gae`,
iterate over the index list, emit each new carry. -/
def gaeScanOut {α : Type} [CommRing α] (rewards : List α) (dones : List Bool)
    (values : List α) (γ lam : α) : α → List Nat → List α
  | _, [] => []
  | gae, t :: ts =>
      let g := deltasCode rewards dones values γ t +
        γ * lam * notDoneNum (dones.getD t false) * gae
      g :: gaeScanOut rewards dones values γ lam g ts

/-- Embeds `gae_advantages` (ppo.py lines 22-44) for a single environment column:
scan `body_fun` with initial carry `0.0` over `jnp.arange(N)[::-1]`, then
reverse the stacked outputs.  (The `stop_gradient` is the identity on values.) -/
def gae_advantages {α : Type} [CommRing α] (rewards : List α) (dones : List Bool)
    (values : List α) (γ lam : α) : List α :=
  (gaeScanOut rewards dones values γ lam 0 (List.range rewards.length).reverse).reverse

/-- The claim's delta formula:
`delta[t] = rewards[t] + gamma * values[t+1] * (1 - dones[t]) - values[t]`. -/
def deltaSpec {α : Type} [CommRing α] (rewards : List α) (dones : List Bool)
    (values : List α) (γ : α) (t : Nat) : α :=
  rewards.getD t 0 + γ * values.getD (t + 1) 0 * (1 - doneNum (dones.getD t false)) -
    values.getD t 0

/-- Fuel-indexed backward recursion; `gaeRec` instantiates the fuel with `N - t`
so that `gaeRec N t` satisfies exactly the claim's recursion (see
`gaeRec_of_lt` and `gaeRec_of_ge`). -/
def gaeRecAux {α : Type} [CommRing α] (rewards : List α) (dones : List Bool)
    (values : List α) (γ lam : α) : Nat → Nat → α
  | 0, _ => 0
  | fuel + 1, t =>
      deltaSpec rewards dones values γ t +
        γ * lam * (1 - doneNum (dones.getD t false)) *
          gaeRecAux rewards dones values γ lam fuel (t + 1)

/-- The backward recursion of the claim:
`gae[t] = delta[t] + gamma * lambda * (1 - dones[t]) * gae[t+1]` with
`gae[N] = 0`. -/
def gaeRec {α : Type} [CommRing α] (rewards : List α) (dones : List Bool)
    (values : List α) (γ lam : α) (N t : Nat) : α :=
  gaeRecAux rewards dones values γ lam (N - t) t

lemma notDoneNum_eq {α : Type} [CommRing α] (d : Bool) :
    (notDoneNum d : α) = 1 - doneNum d := by
  cases d <;> simp [notDoneNum, doneNum]

lemma deltasCode_eq_deltaSpec {α : Type} [CommRing α] (rewards : List α)
    (dones : List Bool) (values : List α) (γ : α) (t : Nat) :
    deltasCode rewards dones values γ t = deltaSpec rewards dones values γ t := by
  simp only [deltasCode, deltaSpec, notDoneNum_eq]
  ring

lemma gaeRec_of_lt {α : Type} [CommRing α] (rewards : List α) (dones : List Bool)
    (values : List α) (γ lam : α) (N t : Nat) (h : t < N) :
    gaeRec rewards dones values γ lam N t =
      deltaSpec rewards dones values γ t +
        γ * lam * (1 - doneNum (dones.getD t false)) *
          gaeRec rewards dones values γ lam N (t + 1) := by
  have h1 : N - t = (N - (t + 1)) + 1 := by omega
  rw [gaeRec, gaeRec, h1]
  rfl

lemma gaeRec_of_ge {α : Type} [CommRing α] (rewards : List α) (dones : List Bool)
    (values : List α) (γ lam : α) (N t : Nat) (h : N ≤ t) :
    gaeRec rewards dones values γ lam N t = 0 := by
  have h1 : N - t = 0 := by omega
  rw [gaeRec, h1]
  rfl

lemma range_reverse_succ (t : Nat) :
    (List.range (t + 1)).reverse = t :: (List.range t).reverse := by
  rw [List.range_succ, List.reverse_append]
  rfl

lemma gaeScanOut_spec {α : Type} [CommRing α] (rewards : List α) (dones : List Bool)
    (values : List α) (γ lam : α) :
    ∀ t, t ≤ rewards.length →
      gaeScanOut rewards dones values γ lam
          (gaeRec rewards dones values γ lam rewards.length t) (List.range t).reverse =
        (List.range t).reverse.map (gaeRec rewards dones values γ lam rewards.length) := by
  intro t
  induction t with
  | zero => intro _; simp [gaeScanOut]
  | succ t ih =>
      intro ht
      have htN : t < rewards.length := ht
      rw [range_reverse_succ]
      show gaeScanOut rewards dones values γ lam
          (gaeRec rewards dones values γ lam rewards.length (t + 1))
          (t :: (List.range t).reverse) = _
      rw [gaeScanOut]
      have hstep :
          deltasCode rewards dones values γ t +
              γ * lam * notDoneNum (dones.getD t false) *
                gaeRec rewards dones values γ lam rewards.length (t + 1) =
            gaeRec rewards dones values γ lam rewards.length t := by
        rw [deltasCode_eq_deltaSpec, notDoneNum_eq,
          gaeRec_of_lt rewards dones values γ lam rewards.length t htN]
      simp only [hstep]
      rw [ih (Nat.le_of_lt htN), List.map_cons]

/-- Closed form of the embedded `gae_advantages`: it is the list of the claim's
backward-recursion values at `t = 0, …, N-1`. -/
lemma gae_advantages_eq_map {α : Type} [CommRing α] (rewards : List α)
    (dones : List Bool) (values : List α) (γ lam : α) :
    gae_advantages rewards dones values γ lam =
      (List.range rewards.length).map
        (gaeRec rewards dones values γ lam rewards.length) := by
  have h0 : (0 : α) = gaeRec rewards dones values γ lam rewards.length rewards.length :=
    (gaeRec_of_ge rewards dones values γ lam rewards.length rewards.length le_rfl).symm
  rw [gae_advantages, h0,
    gaeScanOut_spec rewards dones values γ lam rewards.length le_rfl,
    ← List.map_reverse, List.reverse_reverse]

/-- C2: for every single-environment trajectory of `rewards[0..N-1]`,
`dones[0..N-1]`, `values[0..N]` and every `gamma`, `lambda`, `gae_advantages`
returns `advantages[0..N-1]` equal to the backward recursion
`gae[t] = delta[t] + gamma * lambda * (1 - dones[t]) * gae[t+1]`, `gae[N] = 0`,
with `delta[t] = rewards[t] + gamma * values[t+1] * (1 - dones[t]) - values[t]`. -/
theorem gae_advantages_matches_backward_recursion {α : Type} [CommRing α]
    (rewards : List α) (dones : List Bool) (values : List α) (γ lam : α)
    (hd : dones.length = rewards.length) (hv : values.length = rewards.length + 1) :
    (gae_advantages rewards dones values γ lam).length = rewards.length ∧
      ∀ t, t < rewards.length →
        (gae_advantages rewards dones values γ lam).getD t 0 =
          gaeRec rewards dones values γ lam rewards.length t := by
  constructor
  · rw [gae_advantages_eq_map]
    simp
  · intro t ht
    rw [gae_advantages_eq_map]
    have hlen : t < ((List.range rewards.length).map
        (gaeRec rewards dones values γ lam rewards.length)).length := by
      simpa using ht
    rw [List.getD_eq_getElem _ _ hlen, List.getElem_map, List.getElem_range]

/-- Witness for C2 at the spec's own example: `rewards = [1,1,1]`,
`dones = [false,false,false]`, `values = [0,0,0,0]`, `gamma = lambda = 1`,
where the advantages come out as `[3,2,1]`. -/
theorem gae_advantages_matches_backward_recursion_witness :
    ([false, false, false] : List Bool).length = ([1, 1, 1] : List ℚ).length ∧
    ([0, 0, 0, 0] : List ℚ).length = ([1, 1, 1] : List ℚ).length + 1 ∧
    gae_advantages [1, 1, 1] [false, false, false] [0, 0, 0, 0] (1 : ℚ) 1 = [3, 2, 1] ∧
    ((gae_advantages [1, 1, 1] [false, false, false] [0, 0, 0, 0] (1 : ℚ) 1).length =
        ([1, 1, 1] : List ℚ).length ∧
      ∀ t, t < ([1, 1, 1] : List ℚ).length →
        (gae_advantages [1, 1, 1] [false, false, false] [0, 0, 0, 0] (1 : ℚ) 1).getD t 0 =
          gaeRec [1, 1, 1] [false, false, false] [0, 0, 0, 0] (1 : ℚ) 1
            ([1, 1, 1] : List ℚ).length t) :=
  ⟨rfl, rfl,
    by norm_num [gae_advantages, gaeScanOut, deltasCode, notDoneNum, List.range_succ],
    gae_advantages_matches_backward_recursion [1, 1, 1] [false, false, false]
      [0, 0, 0, 0] (1 : ℚ) 1 rfl rfl⟩

lemma getD_eq_of_take_eq {α : Type} (l1 l2 : List α) (n i : Nat) (d : α)
    (h : l1.take n = l2.take n) (hi : i < n) : l1.getD i d = l2.getD i d := by
  have h1 : l1[i]? = (l1.take n)[i]? := by rw [List.getElem?_take, if_pos hi]
  have h2 : l2[i]? = (l2.take n)[i]? := by rw [List.getElem?_take, if_pos hi]
  rw [List.getD_eq_getElem?_getD, List.getD_eq_getElem?_getD, h1, h2, h]

lemma gaeRec_done {α : Type} [CommRing α] (rewards : List α) (dones : List Bool)
    (values : List α) (γ lam : α) (N t : Nat) (ht : t < N)
    (hdone : dones.getD t false = true) :
    gaeRec rewards dones values γ lam N t = rewards.getD t 0 - values.getD t 0 := by
  rw [gaeRec_of_lt rewards dones values γ lam N t ht, deltaSpec, hdone, doneNum]
  simp

/-- C3: at a timestep `t` with `dones[t] = true` the advantage computed by
`gae_advantages` does not depend on the future of the trajectory: any two
inputs agreeing on `rewards[0..t]`, `dones[0..t]`, `values[0..t]`, with
`dones[t] = true`, yield the same `advantages[t]`. -/
theorem gae_advantages_done_boundary {α : Type} [CommRing α]
    (r1 r2 : List α) (d1 d2 : List Bool) (v1 v2 : List α) (γ lam : α) (t : Nat)
    (ht1 : t < r1.length) (ht2 : t < r2.length)
    (hr : r1.take (t + 1) = r2.take (t + 1)) (hd : d1.take (t + 1) = d2.take (t + 1))
    (hv : v1.take (t + 1) = v2.take (t + 1))
    (hdone : d1.getD t false = true) :
    (gae_advantages r1 d1 v1 γ lam).getD t 0 =
      (gae_advantages r2 d2 v2 γ lam).getD t 0 := by
  have hlt : t < t + 1 := Nat.lt_succ_self t
  have hdone2 : d2.getD t false = true := by
    rw [← getD_eq_of_take_eq d1 d2 (t + 1) t false hd hlt]
    exact hdone
  have h1 : (gae_advantages r1 d1 v1 γ lam).getD t 0 = r1.getD t 0 - v1.getD t 0 := by
    rw [gae_advantages_eq_map]
    have hlen : t < ((List.range r1.length).map
        (gaeRec r1 d1 v1 γ lam r1.length)).length := by simpa using ht1
    rw [List.getD_eq_getElem _ _ hlen, List.getElem_map, List.getElem_range]
    exact gaeRec_done r1 d1 v1 γ lam r1.length t ht1 hdone
  have h2 : (gae_advantages r2 d2 v2 γ lam).getD t 0 = r2.getD t 0 - v2.getD t 0 := by
    rw [gae_advantages_eq_map]
    have hlen : t < ((List.range r2.length).map
        (gaeRec r2 d2 v2 γ lam r2.length)).length := by simpa using ht2
    rw [List.getD_eq_getElem _ _ hlen, List.getElem_map, List.getElem_range]
    exact gaeRec_done r2 d2 v2 γ lam r2.length t ht2 hdone2
  rw [h1, h2, getD_eq_of_take_eq r1 r2 (t + 1) t 0 hr hlt,
    getD_eq_of_take_eq v1 v2 (t + 1) t 0 hv hlt]

/-- Witness for C3: two trajectories that agree up to the done step `t = 1`
but differ in every later reward and value give the same `advantages[1]`. -/
theorem gae_advantages_done_boundary_witness :
    (1 : Nat) < ([1, 2, 100] : List ℚ).length ∧
    (1 : Nat) < ([1, 2, -5] : List ℚ).length ∧
    ([1, 2, 100] : List ℚ).take 2 = ([1, 2, -5] : List ℚ).take 2 ∧
    ([false, true, false] : List Bool).take 2 = ([false, true, true] : List Bool).take 2 ∧
    ([0, 4, 7, 7] : List ℚ).take 2 = ([0, 4, 3, 9] : List ℚ).take 2 ∧
    ([false, true, false] : List Bool).getD 1 false = true ∧
    (gae_advantages [1, 2, 100] [false, true, false] [0, 4, 7, 7] (1 : ℚ) 1).getD 1 0 =
      (gae_advantages [1, 2, -5] [false, true, true] [0, 4, 3, 9] (1 : ℚ) 1).getD 1 0 :=
  ⟨by decide, by decide, rfl, rfl, rfl, rfl,
    gae_advantages_done_boundary [1, 2, 100] [1, 2, -5] [false, true, false]
      [false, true, true] [0, 4, 7, 7] [0, 4, 3, 9] (1 : ℚ) 1 1
      (by decide) (by decide) rfl rfl rfl rfl⟩

/-- The `TimeStep` record of config.py, with every field a time-major matrix:
a list of `time` rows, each row one entry per environment. -/
structure TimeStep (α : Type) where
  log_p : List (List α)
  action : List (List α)
  env_obs : List (List α)
  adv : List (List α)
  reward : List (List α)
  ret : List (List α)
  value : List (List α)
  done : List (List Bool)
  ep_len : List (List α)

/-- The `PPOConfig` dataclass of config.py with its default values.  It is a
plain record: the source performs no validation of any field. -/
structure PPOConfig where
  normalize_advantage : Bool := true
  gamma : ℝ := 0.99
  gae_lambda : ℝ := 0.97
  clip_ratio : ℝ := 0.2
  ent_coef : ℝ := 0
  pi_coef : ℝ := 1
  vf_coef : ℝ := 1
  dapg_lambda : ℝ := 0.1
  dapg_damping : ℝ := 0.99
  target_kl : ℝ := 0.01

/-- Environment column `e` of a time-major numeric matrix. -/
def matCol {α : Type} [CommRing α] (e : Nat) (m : List (List α)) : List α :=
  m.map (fun row => row.getD e 0)

/-- Environment column `e` of a time-major boolean matrix. -/
def matColB (e : Nat) (m : List (List Bool)) : List Bool :=
  m.map (fun row => row.getD e false)

/-- The `jax.vmap(..., in_axes=(1,1,1,None,None), out_axes=1)` wrapper of
`gae_advantages` (ppo.py line 23): the single-environment scan applied
independently to each environment column, restacked time-major. -/
def gae_mat {α : Type} [CommRing α] (rewards : List (List α)) (dones : List (List Bool))
    (values : List (List α)) (γ lam : α) (num_envs : Nat) : List (List α) :=
  (List.range rewards.length).map (fun t =>
    (List.range num_envs).map (fun e =>
      (gae_advantages (matCol e rewards) (matColB e dones) (matCol e values) γ lam).getD t 0))

/-- Flattening of a time-major matrix, as `jnp.mean` / `jnp.std` see it. -/
def matFlat {α : Type} (m : List (List α)) : List α := m.flatten

/-- Embeds `advantages.mean()`: arithmetic mean over all (time, env) cells. -/
noncomputable def meanOf (l : List ℝ) : ℝ := l.sum / l.length

/-- Population variance over all cells (`jnp.std` uses `ddof = 0`). -/
noncomputable def varOf (l : List ℝ) : ℝ :=
  ((l.map (fun x => (x - meanOf l) ^ 2)).sum) / l.length

/-- Embeds `advantages.std()`: population standard deviation. -/
noncomputable def stdOf (l : List ℝ) : ℝ := Real.sqrt (varOf l)

/-- Embeds `(advantages - advantages.mean()) / (advantages.std() + 1e-8)`
(ppo.py line 280): a single global normalization over the flattened
(time × env) set, applied cellwise. -/
noncomputable def normalizeMat (m : List (List ℝ)) : List (List ℝ) :=
  m.map (fun row => row.map (fun a =>
    (a - meanOf (matFlat m)) / (stdOf (matFlat m) + 1e-8)))

/-- Embeds `buffer.value[-1, :]`: the trajectory-final bootstrap value row. -/
def lastRow {α : Type} (m : List (List α)) : List α := m.getD (m.length - 1) []

/-- Broadcast addition `advantages + buffer.value[-1, :]` (ppo.py line 281). -/
def addRowVec (m : List (List ℝ)) (v : List ℝ) : List (List ℝ) :=
  m.map (fun row => List.zipWith (· + ·) row v)

/-- The post-rollout processing of `collect_buffer` (ppo.py lines 272-292):
GAE advantages over `reward[:-1]`, `done[:-1]`, the full `value` column,
optional global advantage normalization, returns as advantages plus the final
bootstrap value row, and trimming of the bootstrap row from `log_p`, `action`,
`env_obs`, `done`, `ep_len` (`value` and `reward` are left untouched). -/
noncomputable def collect_buffer_post (cfg : PPOConfig) (buffer : TimeStep ℝ)
    (num_envs : Nat) : TimeStep ℝ :=
  let advantages0 := gae_mat buffer.reward.dropLast buffer.done.dropLast buffer.value
    cfg.gamma cfg.gae_lambda num_envs
  let advantages := if cfg.normalize_advantage then normalizeMat advantages0 else advantages0
  let returns := addRowVec advantages (lastRow buffer.value)
  { buffer with
      adv := advantages
      ret := returns
      log_p := buffer.log_p.dropLast
      action := buffer.action.dropLast
      env_obs := buffer.env_obs.dropLast
      done := buffer.done.dropLast
      ep_len := buffer.ep_len.dropLast }

/-- Embeds `collect_buffer` (ppo.py lines 254-292): split the key into
`num_envs + 1` keys whose tail seeds the environments, roll out
`rollout_steps_per_env + 1` steps through the external loop collaborator, and
post-process.  No hyperparameter is validated anywhere on this path. -/
noncomputable def collect_buffer {Key : Type} (split_n : Key → Nat → List Key)
    (rollout : List Key → Nat → TimeStep ℝ) (cfg : PPOConfig)
    (num_envs rollout_steps_per_env : Nat) (rng_key : Key) : TimeStep ℝ :=
  let keys := split_n rng_key (num_envs + 1)
  collect_buffer_post cfg (rollout keys.tail (rollout_steps_per_env + 1)) num_envs

lemma length_addRowVec (m : List (List ℝ)) (v : List ℝ) :
    (addRowVec m v).length = m.length := by
  simp [addRowVec]

lemma addRowVec_getD (m : List (List ℝ)) (v : List ℝ) (t e : Nat)
    (ht : t < (addRowVec m v).length) (he : e < ((addRowVec m v).getD t []).length) :
    ((addRowVec m v).getD t []).getD e 0 = (m.getD t []).getD e 0 + v.getD e 0 := by
  have htm : t < m.length := by simpa [length_addRowVec] using ht
  have hrow : (addRowVec m v).getD t [] = List.zipWith (· + ·) (m.getD t []) v := by
    rw [List.getD_eq_getElem _ _ ht]
    simp only [addRowVec, List.getElem_map]
    rw [List.getD_eq_getElem _ _ htm]
  rw [hrow] at he ⊢
  have he' := he
  rw [List.length_zipWith] at he'
  have he1 : e < (m.getD t []).length := lt_of_lt_of_le he' (Nat.min_le_left _ _)
  have he2 : e < v.length := lt_of_lt_of_le he' (Nat.min_le_right _ _)
  rw [List.getD_eq_getElem _ _ he, List.getD_eq_getElem _ _ he1,
    List.getD_eq_getElem _ _ he2, List.getElem_zipWith]

/-- C1: in every buffer assembled by `collect_buffer`, the return targets
satisfy `ret[t, e] = adv[t, e] + value[N, e]` exactly, where `value[N, e]` is
the trajectory-final bootstrap row of environment `e`; since the returns are
computed from the (possibly normalized) advantages stored in the buffer, the
identity holds against the normalized advantages whenever
`normalize_advantage` is enabled. -/
theorem collect_buffer_return_identity (cfg : PPOConfig) (buffer : TimeStep ℝ)
    (num_envs t e : Nat)
    (ht : t < ((collect_buffer_post cfg buffer num_envs).ret).length)
    (he : e < (((collect_buffer_post cfg buffer num_envs).ret).getD t []).length) :
    (((collect_buffer_post cfg buffer num_envs).ret).getD t []).getD e 0 =
      (((collect_buffer_post cfg buffer num_envs).adv).getD t []).getD e 0 +
        (lastRow buffer.value).getD e 0 := by
  have hret : (collect_buffer_post cfg buffer num_envs).ret =
      addRowVec ((collect_buffer_post cfg buffer num_envs).adv) (lastRow buffer.value) := by
    simp only [collect_buffer_post]
  rw [hret] at ht he ⊢
  exact addRowVec_getD _ _ t e ht he

/-- Concrete one-step, one-environment buffer for the C1 witness:
`reward = [[1], [2]]`, `value = [[0], [5]]`, bootstrap row untrimmed. -/
def bufC1 : TimeStep ℝ :=
  ⟨[[0], [0]], [[0], [0]], [[0], [0]], [[0], [0]], [[1], [2]], [[0], [0]],
    [[0], [5]], [[false], [false]], [[0], [0]]⟩

/-- Config for the C1 witness: normalization off, `gamma = lambda = 1`. -/
def cfgC1 : PPOConfig :=
  { normalize_advantage := false, gamma := 1, gae_lambda := 1 }

/-- Witness for C1: at the one-step buffer `bufC1` the advantage is `6`, the
final bootstrap value is `5`, and the stored return is `11 = 6 + 5`. -/
theorem collect_buffer_return_identity_witness :
    (0 : Nat) < ((collect_buffer_post cfgC1 bufC1 1).ret).length ∧
    (0 : Nat) < (((collect_buffer_post cfgC1 bufC1 1).ret).getD 0 []).length ∧
    (((collect_buffer_post cfgC1 bufC1 1).ret).getD 0 []).getD 0 0 =
      (((collect_buffer_post cfgC1 bufC1 1).adv).getD 0 []).getD 0 0 +
        (lastRow (TimeStep.value bufC1)).getD 0 0 ∧
    (((collect_buffer_post cfgC1 bufC1 1).ret).getD 0 []).getD 0 0 = 11 := by
  have h1 : (0 : Nat) < ((collect_buffer_post cfgC1 bufC1 1).ret).length := by
    norm_num [collect_buffer_post, cfgC1, bufC1, addRowVec, gae_mat]
  have h2 : (0 : Nat) < (((collect_buffer_post cfgC1 bufC1 1).ret).getD 0 []).length := by
    norm_num [collect_buffer_post, cfgC1, bufC1, addRowVec, gae_mat, lastRow,
      List.range_succ]
  refine ⟨h1, h2, collect_buffer_return_identity cfgC1 bufC1 1 0 0 h1 h2, ?_⟩
  norm_num [collect_buffer_post, cfgC1, bufC1, addRowVec, gae_mat, lastRow,
    List.range_succ, matCol, matColB, gae_advantages, gaeScanOut, deltasCode, notDoneNum]

lemma length_gae_mat {α : Type} [CommRing α] (rewards : List (List α))
    (dones : List (List Bool)) (values : List (List α)) (γ lam : α) (num_envs : Nat) :
    (gae_mat rewards dones values γ lam num_envs).length = rewards.length := by
  simp [gae_mat]

lemma length_normalizeMat (m : List (List ℝ)) : (normalizeMat m).length = m.length := by
  simp [normalizeMat]

lemma length_collect_adv (cfg : PPOConfig) (buffer : TimeStep ℝ) (num_envs : Nat) :
    (collect_buffer_post cfg buffer num_envs).adv.length = buffer.reward.length - 1 := by
  simp only [collect_buffer_post]
  cases h : cfg.normalize_advantage <;>
    simp [h, length_normalizeMat, length_gae_mat]

lemma length_collect_ret (cfg : PPOConfig) (buffer : TimeStep ℝ) (num_envs : Nat) :
    (collect_buffer_post cfg buffer num_envs).ret.length = buffer.reward.length - 1 := by
  have h : (collect_buffer_post cfg buffer num_envs).ret =
      addRowVec ((collect_buffer_post cfg buffer num_envs).adv) (lastRow buffer.value) := by
    simp only [collect_buffer_post]
  rw [h, length_addRowVec, length_collect_adv]

/-- C4 (amended): after `collect_buffer` finishes, the fields `log_p`,
`action`, `env_obs`, `done`, `ep_len` and the computed `adv`, `ret` have
time-dimension length `rollout_steps_per_env`, while `value` AND `reward`
both retain the extra bootstrap row of length `rollout_steps_per_env + 1`
(the source never trims `reward`). -/
theorem collect_buffer_trim_lengths (cfg : PPOConfig) (buffer : TimeStep ℝ)
    (num_envs S : Nat)
    (hlp : buffer.log_p.length = S + 1) (hac : buffer.action.length = S + 1)
    (hob : buffer.env_obs.length = S + 1) (hrw : buffer.reward.length = S + 1)
    (hvl : buffer.value.length = S + 1) (hdn : buffer.done.length = S + 1)
    (hel : buffer.ep_len.length = S + 1) :
    (collect_buffer_post cfg buffer num_envs).log_p.length = S ∧
    (collect_buffer_post cfg buffer num_envs).action.length = S ∧
    (collect_buffer_post cfg buffer num_envs).env_obs.length = S ∧
    (collect_buffer_post cfg buffer num_envs).done.length = S ∧
    (collect_buffer_post cfg buffer num_envs).ep_len.length = S ∧
    (collect_buffer_post cfg buffer num_envs).adv.length = S ∧
    (collect_buffer_post cfg buffer num_envs).ret.length = S ∧
    (collect_buffer_post cfg buffer num_envs).value.length = S + 1 ∧
    (collect_buffer_post cfg buffer num_envs).reward.length = S + 1 := by
  refine ⟨?_, ?_, ?_, ?_, ?_, ?_, ?_, ?_, ?_⟩
  · simp [collect_buffer_post, hlp]
  · simp [collect_buffer_post, hac]
  · simp [collect_buffer_post, hob]
  · simp [collect_buffer_post, hdn]
  · simp [collect_buffer_post, hel]
  · rw [length_collect_adv, hrw]; omega
  · rw [length_collect_ret, hrw]; omega
  · simp [collect_buffer_post, hvl]
  · simp [collect_buffer_post, hrw]

/-- Two-row (rollout_steps_per_env = 1 plus bootstrap) buffer used by the C4
counterexample and witness. -/
def bufC4 : TimeStep ℝ :=
  ⟨[[0], [0]], [[0], [0]], [[0], [0]], [[0], [0]], [[1], [2]], [[0], [0]],
    [[0], [5]], [[false], [false]], [[0], [0]]⟩

/-- Counterexample to C4 as stated: with `rollout_steps_per_env = 1` every
input field has 2 rows, yet the assembled buffer's `reward` field still has 2
rows, not 1 — `reward` is a field other than `value` that keeps the bootstrap
row. -/
theorem collect_buffer_trim_counterexample :
    (TimeStep.reward bufC4).length = 1 + 1 ∧
    (TimeStep.log_p bufC4).length = 1 + 1 ∧
    (collect_buffer_post {} bufC4 1).reward.length = 2 ∧
    ¬ ((collect_buffer_post {} bufC4 1).reward.length = 1) := by
  refine ⟨rfl, rfl, ?_, ?_⟩
  · simp [collect_buffer_post, bufC4]
  · simp [collect_buffer_post, bufC4]

/-- Witness for the amended C4 at the concrete buffer `bufC4` with
`S = rollout_steps_per_env = 1`. -/
theorem collect_buffer_trim_lengths_witness :
    (TimeStep.log_p bufC4).length = 1 + 1 ∧
    ((collect_buffer_post {} bufC4 1).log_p.length = 1 ∧
      (collect_buffer_post {} bufC4 1).action.length = 1 ∧
      (collect_buffer_post {} bufC4 1).env_obs.length = 1 ∧
      (collect_buffer_post {} bufC4 1).done.length = 1 ∧
      (collect_buffer_post {} bufC4 1).ep_len.length = 1 ∧
      (collect_buffer_post {} bufC4 1).adv.length = 1 ∧
      (collect_buffer_post {} bufC4 1).ret.length = 1 ∧
      (collect_buffer_post {} bufC4 1).value.length = 1 + 1 ∧
      (collect_buffer_post {} bufC4 1).reward.length = 1 + 1) :=
  ⟨rfl, collect_buffer_trim_lengths {} bufC4 1 1 rfl rfl rfl rfl rfl rfl rfl⟩

/-- C8 (amended): neither `PPOConfig` nor `collect_buffer` validates any
hyperparameter.  `collect_buffer` unconditionally rolls out
`rollout_steps_per_env + 1` environment steps and post-processes the result,
for every configuration and every `rollout_steps_per_env`, including `0`; no
configuration error exists on this path. -/
theorem collect_buffer_no_validation {Key : Type} (split_n : Key → Nat → List Key)
    (rollout : List Key → Nat → TimeStep ℝ) (cfg : PPOConfig)
    (num_envs rollout_steps_per_env : Nat) (rng_key : Key) :
    collect_buffer split_n rollout cfg num_envs rollout_steps_per_env rng_key =
      collect_buffer_post cfg
        (rollout ((split_n rng_key (num_envs + 1)).tail) (rollout_steps_per_env + 1))
        num_envs := rfl

/-- Degenerate rollout collaborator for the C8 counterexample: returns a
buffer of `steps` rows whose value entries are `3`. -/
def rolloutC8 : List Unit → Nat → TimeStep ℝ := fun _ steps =>
  ⟨List.replicate steps [0], List.replicate steps [0], List.replicate steps [0],
    List.replicate steps [0], List.replicate steps [0], List.replicate steps [0],
    List.replicate steps [3], List.replicate steps [false], List.replicate steps [0]⟩

/-- Invalid configuration for the C8 counterexample: `clip_ratio = -1 ≤ 0`. -/
def cfgC8 : PPOConfig := { normalize_advantage := false, clip_ratio := -1 }

/-- Counterexample to C8 as stated: with `rollout_steps_per_env = 0` and a
config whose `clip_ratio` is `-1`, no error is raised: the rollout is invoked
for `0 + 1` steps and its data flows into the returned buffer (the `value`
field is exactly the row the rollout produced), contradicting the claim that
no rollout is attempted under such a configuration. -/
theorem collect_buffer_no_validation_counterexample :
    PPOConfig.clip_ratio cfgC8 = -1 ∧
    (collect_buffer (fun _ n => List.replicate n ()) rolloutC8 cfgC8 1 0 ()).value =
      [[(3 : ℝ)]] ∧
    (collect_buffer (fun _ n => List.replicate n ()) rolloutC8 cfgC8 1 0 ()).reward =
      [[(0 : ℝ)]] := by
  refine ⟨rfl, ?_, ?_⟩
  · simp [collect_buffer, collect_buffer_post, rolloutC8]
  · simp [collect_buffer, collect_buffer_post, rolloutC8]

/-- A flat training batch: every `TimeStep` field gathered at sampled
`(t, e)` coordinates, leading dimension = batch size. -/
structure Batch where
  log_p : List ℝ
  action : List ℝ
  env_obs : List ℝ
  adv : List ℝ
  reward : List ℝ
  ret : List ℝ
  value : List ℝ
  done : List Bool
  ep_len : List ℝ

/-- Embeds `BufferSampler` of sampler.py: holds the buffer and its advertised
`buffer_size` (time dimension) and `num_envs`. -/
structure BufferSampler where
  buffer : TimeStep ℝ
  buffer_size : Nat
  num_envs : Nat

/-- Fancy indexing `field[batch_ids, env_ids]`: entry `i` of the result is
`field[batch_ids[i], env_ids[i]]`. -/
def gatherMat {α : Type} (m : List (List α)) (d : α) (tIds eIds : List Nat) : List α :=
  List.zipWith (fun t e => (m.getD t []).getD e d) tIds eIds

/-- Embeds `BufferSampler._get_batch_by_ids` (sampler.py lines 47-55): gather every
field of the buffer at the given id pairs. -/
def get_batch_by_ids (s : BufferSampler) (batch_ids env_ids : List Nat) : Batch :=
  { log_p := gatherMat s.buffer.log_p 0 batch_ids env_ids
    action := gatherMat s.buffer.action 0 batch_ids env_ids
    env_obs := gatherMat s.buffer.env_obs 0 batch_ids env_ids
    adv := gatherMat s.buffer.adv 0 batch_ids env_ids
    reward := gatherMat s.buffer.reward 0 batch_ids env_ids
    ret := gatherMat s.buffer.ret 0 batch_ids env_ids
    value := gatherMat s.buffer.value 0 batch_ids env_ids
    done := gatherMat s.buffer.done false batch_ids env_ids
    ep_len := gatherMat s.buffer.ep_len 0 batch_ids env_ids }

/-- Embeds `BufferSampler.sample_random_batch` (sampler.py lines 31-45): split the
key, draw `batch_size` time ids in `[0, buffer_size)`, split again, draw
`batch_size` env ids in `[0, num_envs)`, and gather.  `split` and `randint`
are the external `jax.random` collaborators. -/
def sample_random_batch {Key : Type} (split : Key → Key × Key)
    (randint : Key → Nat → Nat → Nat → List Nat) (s : BufferSampler)
    (rng_key : Key) (batch_size : Nat) : Batch :=
  let s1 := split rng_key
  let batch_ids := randint s1.2 batch_size 0 s.buffer_size
  let s2 := split s1.1
  let env_ids := randint s2.2 batch_size 0 s.num_envs
  get_batch_by_ids s batch_ids env_ids

lemma length_gatherMat {α : Type} (m : List (List α)) (d : α) (tIds eIds : List Nat) :
    (gatherMat m d tIds eIds).length = min tIds.length eIds.length := by
  simp [gatherMat]

lemma gatherMat_getD {α : Type} (m : List (List α)) (d : α) (tIds eIds : List Nat)
    (n i : Nat) (hts : tIds.length = n) (hes : eIds.length = n) (hi : i < n) :
    (gatherMat m d tIds eIds).getD i d =
      (m.getD (tIds.getD i 0) []).getD (eIds.getD i 0) d := by
  have hlen : i < (gatherMat m d tIds eIds).length := by
    rw [length_gatherMat, hts, hes]
    simpa using hi
  have hit : i < tIds.length := by rw [hts]; exact hi
  have hie : i < eIds.length := by rw [hes]; exact hi
  rw [List.getD_eq_getElem _ _ hlen]
  simp only [gatherMat]
  rw [List.getElem_zipWith, List.getD_eq_getElem _ _ hit, List.getD_eq_getElem _ _ hie]

/-- C5: `sample_random_batch` draws `batch_size` time ids in
`[0, buffer_size)` and `batch_size` env ids in `[0, num_envs)` from two
freshly split keys (the `jax.random.randint` collaborator is axiomatized by
its contract: it returns `n` values inside `[lo, hi)`), and gathers every
`TimeStep` field at those coordinates so that every field of the batch has
leading dimension `batch_size` and entry `i` equals `field[t_i, e_i]`.  No
without-replacement pass is substituted: the ids are drawn independently and
`batch_size` may exceed `buffer_size * num_envs`. -/
theorem sample_random_batch_spec {Key : Type} (split : Key → Key × Key)
    (randint : Key → Nat → Nat → Nat → List Nat)
    (hlen : ∀ k n lo hi, (randint k n lo hi).length = n)
    (hrange : ∀ k n lo hi, lo < hi → ∀ x ∈ randint k n lo hi, lo ≤ x ∧ x < hi)
    (s : BufferSampler) (rng_key : Key) (batch_size : Nat)
    (hB : 0 < s.buffer_size) (hE : 0 < s.num_envs) :
    (∀ x ∈ randint (split rng_key).2 batch_size 0 s.buffer_size, x < s.buffer_size) ∧
    (∀ x ∈ randint (split (split rng_key).1).2 batch_size 0 s.num_envs, x < s.num_envs) ∧
    sample_random_batch split randint s rng_key batch_size =
      get_batch_by_ids s (randint (split rng_key).2 batch_size 0 s.buffer_size)
        (randint (split (split rng_key).1).2 batch_size 0 s.num_envs) ∧
    ((sample_random_batch split randint s rng_key batch_size).log_p.length = batch_size ∧
      (sample_random_batch split randint s rng_key batch_size).action.length = batch_size ∧
      (sample_random_batch split randint s rng_key batch_size).env_obs.length = batch_size ∧
      (sample_random_batch split randint s rng_key batch_size).adv.length = batch_size ∧
      (sample_random_batch split randint s rng_key batch_size).reward.length = batch_size ∧
      (sample_random_batch split randint s rng_key batch_size).ret.length = batch_size ∧
      (sample_random_batch split randint s rng_key batch_size).value.length = batch_size ∧
      (sample_random_batch split randint s rng_key batch_size).done.length = batch_size ∧
      (sample_random_batch split randint s rng_key batch_size).ep_len.length = batch_size) ∧
    (∀ i, i < batch_size →
      (sample_random_batch split randint s rng_key batch_size).log_p.getD i 0 =
        (s.buffer.log_p.getD
            ((randint (split rng_key).2 batch_size 0 s.buffer_size).getD i 0) []).getD
          ((randint (split (split rng_key).1).2 batch_size 0 s.num_envs).getD i 0) 0 ∧
      (sample_random_batch split randint s rng_key batch_size).adv.getD i 0 =
        (s.buffer.adv.getD
            ((randint (split rng_key).2 batch_size 0 s.buffer_size).getD i 0) []).getD
          ((randint (split (split rng_key).1).2 batch_size 0 s.num_envs).getD i 0) 0 ∧
      (sample_random_batch split randint s rng_key batch_size).ret.getD i 0 =
        (s.buffer.ret.getD
            ((randint (split rng_key).2 batch_size 0 s.buffer_size).getD i 0) []).getD
          ((randint (split (split rng_key).1).2 batch_size 0 s.num_envs).getD i 0) 0 ∧
      (sample_random_batch split randint s rng_key batch_size).done.getD i false =
        (s.buffer.done.getD
            ((randint (split rng_key).2 batch_size 0 s.buffer_size).getD i 0) []).getD
          ((randint (split (split rng_key).1).2 batch_size 0 s.num_envs).getD i 0) false) := by
  have h1 : ∀ x ∈ randint (split rng_key).2 batch_size 0 s.buffer_size,
      x < s.buffer_size := fun x hx =>
    (hrange (split rng_key).2 batch_size 0 s.buffer_size hB x hx).2
  have h2 : ∀ x ∈ randint (split (split rng_key).1).2 batch_size 0 s.num_envs,
      x < s.num_envs := fun x hx =>
    (hrange (split (split rng_key).1).2 batch_size 0 s.num_envs hE x hx).2
  have hT := hlen (split rng_key).2 batch_size 0 s.buffer_size
  have hEn := hlen (split (split rng_key).1).2 batch_size 0 s.num_envs
  refine ⟨h1, h2, rfl, ?_, ?_⟩
  · simp only [sample_random_batch, get_batch_by_ids]
    refine ⟨?_, ?_, ?_, ?_, ?_, ?_, ?_, ?_, ?_⟩ <;>
      rw [length_gatherMat, hT, hEn, Nat.min_self]
  · intro i hi
    refine ⟨?_, ?_, ?_, ?_⟩ <;>
      exact gatherMat_getD _ _ _ _ batch_size i hT hEn hi

/-- Concrete sampler for the C5 witness: a two-step, one-env buffer. -/
def samplerC5 : BufferSampler :=
  ⟨⟨[[10], [20]], [[0], [0]], [[0], [0]], [[0], [0]], [[1], [2]], [[0], [0]],
    [[0], [5]], [[false], [true]], [[0], [0]]⟩, 2, 1⟩

/-- Degenerate `jax.random.randint` stand-in for the C5 witness: always
returns the lower bound, so drawing 3 ids from a population of 2 produces
duplicates — visible with-replacement sampling. -/
def randintC5 : Unit → Nat → Nat → Nat → List Nat := fun _ n lo _ => List.replicate n lo

/-- Key splitter stand-in for the C5 witness. -/
def splitC5 : Unit → Unit × Unit := fun _ => ((), ())

/-- Witness for C5: with `batch_size = 3 > buffer_size * num_envs = 2` the
drawn ids are `[0, 0, 0]` (duplicates kept, no without-replacement pass) and
the gathered `log_p` batch is `[10, 10, 10]` of length 3. -/
theorem sample_random_batch_spec_witness :
    (∀ k n lo hi, (randintC5 k n lo hi).length = n) ∧
    (∀ k n lo hi, lo < hi → ∀ x ∈ randintC5 k n lo hi, lo ≤ x ∧ x < hi) ∧
    0 < BufferSampler.buffer_size samplerC5 ∧
    0 < BufferSampler.num_envs samplerC5 ∧
    randintC5 ((splitC5 ()).2) 3 0 (BufferSampler.buffer_size samplerC5) = [0, 0, 0] ∧
    (sample_random_batch splitC5 randintC5 samplerC5 () 3).log_p.length = 3 ∧
    (sample_random_batch splitC5 randintC5 samplerC5 () 3).log_p = [10, 10, 10] := by
  have hlen : ∀ (k : Unit) n lo hi, (randintC5 k n lo hi).length = n := by
    intro k n lo hi; simp [randintC5]
  have hrange : ∀ (k : Unit) n lo hi, lo < hi →
      ∀ x ∈ randintC5 k n lo hi, lo ≤ x ∧ x < hi := by
    intro k n lo hi hlt x hx
    have hx0 : x = lo := List.eq_of_mem_replicate hx
    exact ⟨le_of_eq hx0.symm, hx0 ▸ hlt⟩
  refine ⟨hlen, hrange, by decide, by decide, rfl, ?_, ?_⟩
  · exact (sample_random_batch_spec splitC5 randintC5 hlen hrange samplerC5 () 3
      (by decide) (by decide)).2.2.2.1.1
  · norm_num [sample_random_batch, get_batch_by_ids, gatherMat, samplerC5,
      randintC5, splitC5, List.replicate]

/-- Embeds `update_step_fn` inside `update_parameters` (ppo.py lines 219-244): split
the carried key, sample a fresh minibatch from the second component, take the
actor gradient step at the current actor (when `update_actor`), take the
critic gradient step at the current critic (when `update_critic`), and carry
the first split component forward.  The gradient-and-apply composites of the
external loss / optimizer collaborators are the abstract `actor_step` /
`critic_step`. -/
def update_step_fn {Key Actor Critic Bat : Type} (split : Key → Key × Key)
    (sample : Key → Nat → Bat) (actor_step : Bat → Actor → Actor)
    (critic_step : Bat → Critic → Critic) (update_actor update_critic : Bool)
    (batch_size : Nat) (data : Key × Actor × Critic) : Key × Actor × Critic :=
  let s := split data.1
  let batch := sample s.2 batch_size
  let new_actor := if update_actor then actor_step batch data.2.1 else data.2.1
  let new_critic := if update_critic then critic_step batch data.2.2 else data.2.2
  (s.1, new_actor, new_critic)

/-- Embeds `jax.lax.scan` with unit inputs and a fixed `length`: iterate the step on
the carry. -/
def scanLoop {σ : Type} (f : σ → σ) : Nat → σ → σ
  | 0, s => s
  | n + 1, s => scanLoop f n (f s)

/-- Embeds `update_parameters` (ppo.py lines 203-252): scan `update_step_fn` for
`update_iters` steps starting from `(rng_key, actor, critic)` and return the
final actor and critic. -/
def update_parameters {Key Actor Critic Bat : Type} (split : Key → Key × Key)
    (sample : Key → Nat → Bat) (actor_step : Bat → Actor → Actor)
    (critic_step : Bat → Critic → Critic) (update_actor update_critic : Bool)
    (update_iters batch_size : Nat) (rng_key : Key) (actor : Actor)
    (critic : Critic) : Actor × Critic :=
  let c := scanLoop
    (update_step_fn split sample actor_step critic_step update_actor update_critic batch_size)
    update_iters (rng_key, actor, critic)
  (c.2.1, c.2.2)

/-- The update loop exactly as the spec describes it: a strictly sequential
recursion in which every inner iteration splits the carried key, samples one
fresh minibatch from the split-off key, and applies both gradient steps to
the parameters produced by the previous iteration. -/
def seqUpdate {Key Actor Critic Bat : Type} (split : Key → Key × Key)
    (sample : Key → Nat → Bat) (actor_step : Bat → Actor → Actor)
    (critic_step : Bat → Critic → Critic) (batch_size : Nat) :
    Nat → Key → Actor → Critic → Actor × Critic
  | 0, _, a, c => (a, c)
  | n + 1, k, a, c =>
      let b := sample (split k).2 batch_size
      seqUpdate split sample actor_step critic_step batch_size n (split k).1
        (actor_step b a) (critic_step b c)

/-- C7: with both update flags on, `update_parameters` performs
`update_iters` strictly sequential inner steps; each iteration samples a
fresh random minibatch from a freshly split rng key (not once per epoch), and
the gradient steps of iteration `i + 1` are applied to the actor and critic
produced by iteration `i` — the scan is exactly the sequential recursion
`seqUpdate`. -/
theorem update_parameters_sequential_fresh_minibatch {Key Actor Critic Bat : Type}
    (split : Key → Key × Key) (sample : Key → Nat → Bat)
    (actor_step : Bat → Actor → Actor) (critic_step : Bat → Critic → Critic)
    (update_iters batch_size : Nat) (rng_key : Key) (actor : Actor) (critic : Critic) :
    update_parameters split sample actor_step critic_step true true update_iters
        batch_size rng_key actor critic =
      seqUpdate split sample actor_step critic_step batch_size update_iters
        rng_key actor critic := by
  induction update_iters generalizing rng_key actor critic with
  | zero => rfl
  | succ n ih =>
      simp only [update_parameters, scanLoop, update_step_fn, if_true, seqUpdate]
      exact ih _ _ _

lemma scanLoop_actor_frame {Key Actor Critic Bat : Type} (split : Key → Key × Key)
    (sample : Key → Nat → Bat) (actor_step : Bat → Actor → Actor)
    (critic_step : Bat → Critic → Critic) (uc : Bool) (bs : Nat) :
    ∀ (n : Nat) (s : Key × Actor × Critic),
      (scanLoop (update_step_fn split sample actor_step critic_step false uc bs) n s).2.1 =
        s.2.1
  | 0, s => rfl
  | n + 1, s => by
      rw [scanLoop, scanLoop_actor_frame split sample actor_step critic_step uc bs n]
      simp [update_step_fn]

lemma scanLoop_critic_frame {Key Actor Critic Bat : Type} (split : Key → Key × Key)
    (sample : Key → Nat → Bat) (actor_step : Bat → Actor → Actor)
    (critic_step : Bat → Critic → Critic) (ua : Bool) (bs : Nat) :
    ∀ (n : Nat) (s : Key × Actor × Critic),
      (scanLoop (update_step_fn split sample actor_step critic_step ua false bs) n s).2.2 =
        s.2.2
  | 0, s => rfl
  | n + 1, s => by
      rw [scanLoop, scanLoop_critic_frame split sample actor_step critic_step ua bs n]
      simp [update_step_fn]

/-- C10: `update_parameters` with `update_actor = false` returns the input
actor unchanged for every rng key, buffer sampler, batch size and iteration
count, and with `update_critic = false` it returns the input critic
unchanged — only the component whose flag is on is replaced. -/
theorem update_parameters_frame {Key Actor Critic Bat : Type} (split : Key → Key × Key)
    (sample : Key → Nat → Bat) (actor_step : Bat → Actor → Actor)
    (critic_step : Bat → Critic → Critic) (update_iters batch_size : Nat)
    (rng_key : Key) (actor : Actor) (critic : Critic) :
    (∀ uc : Bool,
      (update_parameters split sample actor_step critic_step false uc update_iters
          batch_size rng_key actor critic).1 = actor) ∧
    (∀ ua : Bool,
      (update_parameters split sample actor_step critic_step ua false update_iters
          batch_size rng_key actor critic).2 = critic) := by
  constructor
  · intro uc
    exact scanLoop_actor_frame split sample actor_step critic_step uc batch_size
      update_iters (rng_key, actor, critic)
  · intro ua
    exact scanLoop_critic_frame split sample actor_step critic_step ua batch_size
      update_iters (rng_key, actor, critic)

/-- Embeds `train_step` (ppo.py lines 156-190) with the rollout and update phases
abstracted: split the incoming key, collect a buffer with the second
component (the rollout uses the current parameters), then update the
parameters with the first component. -/
def train_step {Key S B : Type} (split : Key → Key × Key) (collect : Key → S → B)
    (update : Key → B → S → S) (rng_key : Key) (s : S) : S :=
  let p := split rng_key
  update p.1 (collect p.2 s) s

/-- The epoch loop of `train` (ppo.py lines 129-143): each epoch splits the
carried root key, runs `train_step` on the split-off key, and threads the
updated actor/critic state. -/
def train_loop {Key S : Type} (split : Key → Key × Key) (step : Key → S → S) :
    Nat → Key → S → S
  | 0, _, s => s
  | n + 1, k, s => train_loop split step n (split k).1 (step (split k).2 s)

/-- The chain of carried root keys: `keyChain i` is the root key held at the
start of epoch `i`, each obtained by splitting the previous one. -/
def keyChain {Key : Type} (split : Key → Key × Key) (k : Key) : Nat → Key
  | 0 => k
  | n + 1 => (split (keyChain split k n)).1

lemma keyChain_shift {Key : Type} (split : Key → Key × Key) (k : Key) :
    ∀ i, keyChain split ((split k).1) i = keyChain split k (i + 1)
  | 0 => rfl
  | i + 1 => by rw [keyChain, keyChain_shift split k i]; rfl

lemma train_loop_foldl {Key S : Type} (split : Key → Key × Key) (step : Key → S → S) :
    ∀ (n : Nat) (k : Key) (s : S),
      train_loop split step n k s =
        (List.range n).foldl (fun t i => step (split (keyChain split k i)).2 t) s := by
  intro n
  induction n with
  | zero => intro k s; rfl
  | succ n ih =>
      intro k s
      rw [train_loop, ih, List.range_succ_eq_map, List.foldl_cons, List.foldl_map]
      have hfun :
          (fun (t : S) (i : Nat) => step (split (keyChain split ((split k).1) i)).2 t) =
            fun (t : S) (i : Nat) => step (split (keyChain split k (i + 1))).2 t := by
        funext t i
        rw [keyChain_shift]
      rw [hfun]
      rfl

/-- C9: the training loop is deterministic and all of its randomness is the
explicit split chain of the root key.  Two runs with the same root key, the
same epoch count and initial parameters, and extensionally identical
environment/rollout behavior (`collect`) and update semantics (`update`)
produce identical parameter states; moreover the run equals a fold in which
epoch `i` consumes exactly the key split off the chained root key
`keyChain i` — every stochastic operation consumes a distinct derived seed
and nothing else enters the update path. -/
theorem train_loop_deterministic {Key S B : Type} (split : Key → Key × Key)
    (collect1 collect2 : Key → S → B) (update1 update2 : Key → B → S → S)
    (n : Nat) (k : Key) (s : S)
    (hc : ∀ x y, collect1 x y = collect2 x y)
    (hu : ∀ x b y, update1 x b y = update2 x b y) :
    train_loop split (train_step split collect1 update1) n k s =
      train_loop split (train_step split collect2 update2) n k s ∧
    train_loop split (train_step split collect1 update1) n k s =
      (List.range n).foldl
        (fun t i => train_step split collect1 update1 (split (keyChain split k i)).2 t) s := by
  constructor
  · have hstep : train_step split collect1 update1 = train_step split collect2 update2 := by
      funext x y
      simp only [train_step, hc, hu]
    rw [hstep]
  · exact train_loop_foldl split (train_step split collect1 update1) n k s

/-- Witness for C9 at a concrete instantiation: keys, states and buffers are
naturals, `split k = (k + 1, 2 * k + 5)`, and the two runs use the same
collect/update functions. -/
theorem train_loop_deterministic_witness :
    (∀ (x y : Nat), x + y = x + y) ∧
    (∀ (x b y : Nat), x * b + y = x * b + y) ∧
    (train_loop (fun k => (k + 1, 2 * k + 5)) (train_step (fun k => (k + 1, 2 * k + 5))
          (fun x y => x + y) (fun x b y => x * b + y)) 2 0 3 =
        train_loop (fun k => (k + 1, 2 * k + 5)) (train_step (fun k => (k + 1, 2 * k + 5))
          (fun x y => x + y) (fun x b y => x * b + y)) 2 0 3 ∧
      train_loop (fun k => (k + 1, 2 * k + 5)) (train_step (fun k => (k + 1, 2 * k + 5))
          (fun x y => x + y) (fun x b y => x * b + y)) 2 0 3 =
        (List.range 2).foldl
          (fun t i => train_step (fun k => (k + 1, 2 * k + 5))
            (fun x y => x + y) (fun x b y => x * b + y)
            ((fun k => (k + 1, 2 * k + 5)) (keyChain (fun k => (k + 1, 2 * k + 5)) 0 i)).2 t)
          3) :=
  ⟨fun _ _ => rfl, fun _ _ _ => rfl,
    train_loop_deterministic (fun k => (k + 1, 2 * k + 5)) (fun x y => x + y)
      (fun x y => x + y) (fun x b y => x * b + y) (fun x b y => x * b + y) 2 0 3
      (fun _ _ => rfl) (fun _ _ _ => rfl)⟩

lemma sum_map_sub_div (l : List ℝ) (μ c : ℝ) :
    (l.map (fun x => (x - μ) / c)).sum = (l.sum - l.length * μ) / c := by
  induction l with
  | nil => simp
  | cons a t ih =>
      rw [List.map_cons, List.sum_cons, ih, div_add_div_same, List.sum_cons,
        List.length_cons]
      congr 1
      push_cast
      ring

lemma sum_map_sq_div (l : List ℝ) (μ c : ℝ) :
    (l.map (fun x => ((x - μ) / c) ^ 2)).sum = (l.map (fun x => (x - μ) ^ 2)).sum / c ^ 2 := by
  induction l with
  | nil => simp
  | cons a t ih =>
      rw [List.map_cons, List.sum_cons, ih, List.map_cons, List.sum_cons, div_pow,
        div_add_div_same]

lemma meanOf_normalized (l : List ℝ) (c : ℝ) (hl : l ≠ []) :
    meanOf (l.map (fun x => (x - meanOf l) / c)) = 0 := by
  have hn : (l.length : ℝ) ≠ 0 := by
    have h := List.length_pos.mpr hl
    simp only [ne_eq, Nat.cast_eq_zero]
    omega
  rw [meanOf, List.length_map, sum_map_sub_div, meanOf, mul_comm,
    div_mul_cancel₀ _ hn, sub_self, zero_div, zero_div]

lemma varOf_normalized (l : List ℝ) (c : ℝ) (hl : l ≠ []) :
    varOf (l.map (fun x => (x - meanOf l) / c)) = varOf l / c ^ 2 := by
  rw [varOf, meanOf_normalized l c hl, List.map_map]
  simp only [Function.comp_def, sub_zero]
  rw [sum_map_sq_div, List.length_map, varOf, div_right_comm]

lemma varOf_nonneg (l : List ℝ) : 0 ≤ varOf l := by
  apply div_nonneg
  · apply List.sum_nonneg
    intro x hx
    obtain ⟨y, _, rfl⟩ := List.mem_map.mp hx
    positivity
  · positivity

lemma stdOf_normalized (l : List ℝ) (c : ℝ) (hl : l ≠ []) (hc : 0 < c) :
    stdOf (l.map (fun x => (x - meanOf l) / c)) = stdOf l / c := by
  rw [stdOf, varOf_normalized l c hl, Real.sqrt_div (varOf_nonneg l),
    Real.sqrt_sq hc.le, stdOf]

lemma std_ratio_close_to_one (σ : ℝ) (hσ : 1 / 100 ≤ σ) :
    |σ / (σ + 1e-8) - 1| ≤ 1e-6 := by
  have hσ0 : (0 : ℝ) < σ := lt_of_lt_of_le (by norm_num) hσ
  have hc : (0 : ℝ) < σ + 1e-8 := by
    have : (0 : ℝ) < (1e-8 : ℝ) := by norm_num
    linarith
  have h1 : σ / (σ + 1e-8) - 1 = -((1e-8 : ℝ) / (σ + 1e-8)) := by
    field_simp
  rw [h1, abs_neg, abs_of_nonneg (div_nonneg (by norm_num) hc.le), div_le_iff₀ hc]
  nlinarith

lemma matFlat_normalizeMat (m : List (List ℝ)) :
    matFlat (normalizeMat m) =
      (matFlat m).map (fun a =>
        (a - meanOf (matFlat m)) / (stdOf (matFlat m) + 1e-8)) := by
  rw [normalizeMat, matFlat, matFlat]
  exact (List.map_flatten _ m).symm

/-- C6 (amended): when `normalize_advantage` is enabled, `collect_buffer`
replaces the advantages by `(adv - mean(adv)) / (std(adv) + 1e-8)` with mean
and std taken jointly over the whole flattened (time × env) set — a single
global normalization.  The resulting flattened set has mean exactly 0, and,
provided the pre-normalization standard deviation is at least `1/100` (so
that the `1e-8` epsilon is negligible), its standard deviation is within
`1e-6` of 1.  (For degenerate, near-constant advantage sets the epsilon
drives the normalized std towards 0, not 1 — see the counterexample.) -/
theorem collect_buffer_normalization (cfg : PPOConfig) (buffer : TimeStep ℝ)
    (num_envs : Nat) (hnorm : cfg.normalize_advantage = true)
    (hne : matFlat (gae_mat buffer.reward.dropLast buffer.done.dropLast buffer.value
      cfg.gamma cfg.gae_lambda num_envs) ≠ [])
    (hσ : 1 / 100 ≤ stdOf (matFlat (gae_mat buffer.reward.dropLast buffer.done.dropLast
      buffer.value cfg.gamma cfg.gae_lambda num_envs))) :
    (collect_buffer_post cfg buffer num_envs).adv =
      normalizeMat (gae_mat buffer.reward.dropLast buffer.done.dropLast buffer.value
        cfg.gamma cfg.gae_lambda num_envs) ∧
    meanOf (matFlat ((collect_buffer_post cfg buffer num_envs).adv)) = 0 ∧
    |stdOf (matFlat ((collect_buffer_post cfg buffer num_envs).adv)) - 1| ≤ 1e-6 := by
  have hσ0 : (0 : ℝ) < stdOf (matFlat (gae_mat buffer.reward.dropLast
      buffer.done.dropLast buffer.value cfg.gamma cfg.gae_lambda num_envs)) :=
    lt_of_lt_of_le (by norm_num) hσ
  have hc : (0 : ℝ) < stdOf (matFlat (gae_mat buffer.reward.dropLast
      buffer.done.dropLast buffer.value cfg.gamma cfg.gae_lambda num_envs)) + 1e-8 := by
    have he8 : (0 : ℝ) < (1e-8 : ℝ) := by norm_num
    linarith
  have hadv : (collect_buffer_post cfg buffer num_envs).adv =
      normalizeMat (gae_mat buffer.reward.dropLast buffer.done.dropLast buffer.value
        cfg.gamma cfg.gae_lambda num_envs) := by
    simp only [collect_buffer_post, hnorm, if_true]
  refine ⟨hadv, ?_, ?_⟩
  · rw [hadv, matFlat_normalizeMat]
    exact meanOf_normalized _ _ hne
  · rw [hadv, matFlat_normalizeMat, stdOf_normalized _ _ hne hc]
    exact std_ratio_close_to_one _ hσ

/-- All-zero three-row buffer for the C6 counterexample. -/
def bufC6z : TimeStep ℝ :=
  ⟨[[0], [0], [0]], [[0], [0], [0]], [[0], [0], [0]], [[0], [0], [0]],
    [[0], [0], [0]], [[0], [0], [0]], [[0], [0], [0]],
    [[false], [false], [false]], [[0], [0], [0]]⟩

/-- Config with normalization enabled and `gamma = lambda = 0` used by the C6
counterexample and witness. -/
def cfgC6 : PPOConfig := { normalize_advantage := true, gamma := 0, gae_lambda := 0 }

/-- Counterexample to C6 as stated: on an all-zero rollout the advantages are
constant, so after normalization the flattened advantage set has standard
deviation 0, not approximately 1: the epsilon in the denominator maps a
(near-)constant advantage set to (near-)zero, and `|0 - 1| ≤ 1e-6` fails. -/
theorem collect_buffer_normalization_counterexample :
    PPOConfig.normalize_advantage cfgC6 = true ∧
    matFlat ((collect_buffer_post cfgC6 bufC6z 1).adv) ≠ [] ∧
    stdOf (matFlat ((collect_buffer_post cfgC6 bufC6z 1).adv)) = 0 ∧
    ¬ (|stdOf (matFlat ((collect_buffer_post cfgC6 bufC6z 1).adv)) - 1| ≤ 1e-6) := by
  have hflat : matFlat ((collect_buffer_post cfgC6 bufC6z 1).adv) = [0, 0] := by
    norm_num [collect_buffer_post, cfgC6, bufC6z, normalizeMat, matFlat, gae_mat,
      matCol, matColB, gae_advantages, gaeScanOut, deltasCode, notDoneNum,
      List.range_succ, meanOf, stdOf, varOf]
  have hstd : stdOf (matFlat ((collect_buffer_post cfgC6 bufC6z 1).adv)) = 0 := by
    rw [hflat]
    norm_num [stdOf, varOf, meanOf, Real.sqrt_zero]
  refine ⟨rfl, ?_, hstd, ?_⟩
  · rw [hflat]; simp
  · rw [hstd]
    norm_num

/-- Three-row buffer with rewards `1, -1` for the C6 witness: with
`gamma = lambda = 0` the advantages are exactly the first two rewards. -/
def bufC6w : TimeStep ℝ :=
  ⟨[[0], [0], [0]], [[0], [0], [0]], [[0], [0], [0]], [[0], [0], [0]],
    [[1], [-1], [0]], [[0], [0], [0]], [[0], [0], [0]],
    [[false], [false], [false]], [[0], [0], [0]]⟩

/-- Witness for the amended C6: the pre-normalization advantages are
`{1, -1}` with mean 0 and std exactly 1 ≥ 1/100, so the normalized set has
mean 0 and std within `1e-6` of 1. -/
theorem collect_buffer_normalization_witness :
    PPOConfig.normalize_advantage cfgC6 = true ∧
    matFlat (gae_mat (TimeStep.reward bufC6w).dropLast (TimeStep.done bufC6w).dropLast
      (TimeStep.value bufC6w) (PPOConfig.gamma cfgC6) (PPOConfig.gae_lambda cfgC6) 1) ≠ [] ∧
    1 / 100 ≤ stdOf (matFlat (gae_mat (TimeStep.reward bufC6w).dropLast
      (TimeStep.done bufC6w).dropLast (TimeStep.value bufC6w) (PPOConfig.gamma cfgC6)
      (PPOConfig.gae_lambda cfgC6) 1)) ∧
    (meanOf (matFlat ((collect_buffer_post cfgC6 bufC6w 1).adv)) = 0 ∧
      |stdOf (matFlat ((collect_buffer_post cfgC6 bufC6w 1).adv)) - 1| ≤ 1e-6) := by
  have hA : gae_mat (TimeStep.reward bufC6w).dropLast (TimeStep.done bufC6w).dropLast
      (TimeStep.value bufC6w) (PPOConfig.gamma cfgC6) (PPOConfig.gae_lambda cfgC6) 1 =
      [[1], [-1]] := by
    norm_num [cfgC6, bufC6w, gae_mat, matCol, matColB, gae_advantages, gaeScanOut,
      deltasCode, notDoneNum, List.range_succ]
  have hflatA : matFlat (gae_mat (TimeStep.reward bufC6w).dropLast
      (TimeStep.done bufC6w).dropLast (TimeStep.value bufC6w) (PPOConfig.gamma cfgC6)
      (PPOConfig.gae_lambda cfgC6) 1) = [1, -1] := by
    rw [hA]; simp [matFlat]
  have hstdA : stdOf (matFlat (gae_mat (TimeStep.reward bufC6w).dropLast
      (TimeStep.done bufC6w).dropLast (TimeStep.value bufC6w) (PPOConfig.gamma cfgC6)
      (PPOConfig.gae_lambda cfgC6) 1)) = 1 := by
    rw [hflatA]
    have hm : meanOf [(1 : ℝ), -1] = 0 := by norm_num [meanOf]
    have hv : varOf [(1 : ℝ), -1] = 1 := by norm_num [varOf, hm]
    rw [stdOf, hv, Real.sqrt_one]
  have hne : matFlat (gae_mat (TimeStep.reward bufC6w).dropLast
      (TimeStep.done bufC6w).dropLast (TimeStep.value bufC6w) (PPOConfig.gamma cfgC6)
      (PPOConfig.gae_lambda cfgC6) 1) ≠ [] := by
    rw [hflatA]; simp
  have hσ : 1 / 100 ≤ stdOf (matFlat (gae_mat (TimeStep.reward bufC6w).dropLast
      (TimeStep.done bufC6w).dropLast (TimeStep.value bufC6w) (PPOConfig.gamma cfgC6)
      (PPOConfig.gae_lambda cfgC6) 1)) := by
    rw [hstdA]; norm_num
  exact ⟨rfl, hne, hσ,
    (collect_buffer_normalization cfgC6 bufC6w 1 rfl hne hσ).2⟩

end PaperRL
